import Mathlib

/-!
Verification of the BPMN widget core: the validation-rule engine, the task
metadata extraction and update contract, and the bottleneck analyzer.

The JavaScript sources are shallowly embedded: the diagram element graph is a
list of elements, marker mutation is explicit state passing on a marker list,
and the dynamic duration values (string or undefined) are Option String.
Machine numbers in this code are exact JavaScript integers in the small range,
embedded as Int or Nat.
-/

namespace BpmnWidget

/-! ## JavaScript string primitives -/

/-- Model of the JavaScript trim: drop whitespace at both ends. -/
def jsTrimList (cs : List Char) : List Char :=
  ((cs.dropWhile Char.isWhitespace).reverse.dropWhile Char.isWhitespace).reverse

/-- Model of String.prototype.trim. -/
def jsTrim (s : String) : String :=
  ⟨jsTrimList s.data⟩

/-- Model of String.prototype.endsWith: the characters of the second string
are a suffix of the characters of the first. -/
def jsEndsWith (s suffix : String) : Bool :=
  suffix.data.isSuffixOf s.data

/-- Split a character list on a separator character; mirrors
String.prototype.split with a one-character separator (an empty input gives
one empty part). -/
def splitOnChar (sep : Char) : List Char → List (List Char)
  | [] => [[]]
  | c :: rest =>
      match splitOnChar sep rest with
      | [] => if c = sep then [[], []] else [[c]]
      | p :: ps => if c = sep then [] :: p :: ps else (c :: p) :: ps

/-- Model of String.prototype.split with a one-character separator. -/
def jsSplit (sep : Char) (s : String) : List String :=
  (splitOnChar sep s.data).map (fun cs => ⟨cs⟩)

/-- Numeric value of a list of decimal digit characters, most significant
first. -/
def digitsToNat (ds : List Char) : Nat :=
  ds.foldl (fun n c => 10 * n + (c.toNat - 48)) 0

/-- Value of the maximal leading run of decimal digits, none when the run is
empty (the NaN case of parseInt). -/
def parseDigits (cs : List Char) : Option Nat :=
  match cs.takeWhile Char.isDigit with
  | [] => none
  | ds => some (digitsToNat ds)

/-- Model of the JavaScript parseInt with radix 10: skip leading whitespace,
read an optional sign, then the maximal run of decimal digits; none models
NaN. -/
def parseIntJS (s : String) : Option Int :=
  match s.data.dropWhile Char.isWhitespace with
  | [] => none
  | c :: rest =>
      if c = '-' then (parseDigits rest).map (fun n => -(n : Int))
      else if c = '+' then (parseDigits rest).map (fun n => (n : Int))
      else (parseDigits (c :: rest)).map (fun n => (n : Int))

/-! ## Bottleneck analyzer: parseDuration (part_001 lines 4-14) -/

/-- parseDuration from the source: parse a duration string of shape HH:MM to
total minutes; 0 for an empty or blank string or a wrong part count; each
part goes through parseInt with a fallback of 0. -/
def parseDuration (s : String) : Int :=
  if s = "" then 0
  else if jsTrim s = "" then 0
  else
    let parts := jsSplit ':' s
    if parts.length ≠ 2 then 0
    else ((parseIntJS (parts.getD 0 "")).getD 0) * 60 + (parseIntJS (parts.getD 1 "")).getD 0

example : parseDuration "02:30" = 150 := by decide
example : parseDuration "" = 0 := by decide
example : parseDuration "abc:30" = 30 := by decide
example : parseDuration "1:2:3" = 0 := by decide
example : parseDuration "-2:30" = -90 := by decide

/-! ## Data model: the diagram element graph -/

/-- One typed extension record inside an extension-elements block (a moddle
element with a type tag and a duration attribute). -/
structure ExtRecord where
  rtype : String
  duration : String
deriving DecidableEq

/-- The business object behind a diagram element: id, optional name, optional
type tag, the attached-to reference of boundary events (modelled by its
presence), and the optional extension-elements block. -/
structure BusinessObject where
  id : String
  name : Option String
  btype : Option String
  attachedToRef : Bool
  extensionElements : Option (List ExtRecord)
deriving DecidableEq

/-- An incoming or outgoing connection of a diagram element: the type tag of
its business object and whether a condition expression is present. -/
structure Connection where
  ctype : String
  hasCondition : Bool
deriving DecidableEq

/-- A diagram element as held by the element registry. -/
structure Element where
  eid : String
  businessObject : BusinessObject
  incoming : List Connection
  outgoing : List Connection
deriving DecidableEq

/-- elementRegistry.get: the first element carrying the requested id. -/
def findById (d : List Element) (id : String) : Option Element :=
  d.find? (fun e => e.eid == id)

/-- A normalized task record as exchanged with the host platform; duration is
either a string or undefined. -/
structure TaskRecord where
  taskId : String
  name : String
  ttype : String
  duration : Option String
deriving DecidableEq

/-! ## Graph accessor helpers (validations/helpers.js) -/

/-- isType from helpers.js: strict equality of the business-object type tag. -/
def isType (e : Element) (t : String) : Bool :=
  e.businessObject.btype == some t

/-- isTask from helpers.js: the type tag is present and ends with Task. -/
def isTask (e : Element) : Bool :=
  match e.businessObject.btype with
  | none => false
  | some t => jsEndsWith t "Task"

/-- isFlowNode from helpers.js: the type tag (empty when absent) ends with
Task, Event, Gateway or SubProcess. -/
def isFlowNode (e : Element) : Bool :=
  let t := e.businessObject.btype.getD ""
  jsEndsWith t "Task" || jsEndsWith t "Event" || jsEndsWith t "Gateway" || jsEndsWith t "SubProcess"

/-- isBoundaryEvent from helpers.js: an attached-to reference is present. -/
def isBoundaryEvent (e : Element) : Bool :=
  e.businessObject.attachedToRef

/-! ## Task metadata extractor (taskExtractor, part_001 lines 74-94) -/

/-- The first custom:taskMetrics record of the extension block of an element
(an absent block reads as an empty values list). -/
def metricsOf (e : Element) : Option ExtRecord :=
  (e.businessObject.extensionElements.getD []).find?
    (fun v => v.rtype == "custom:taskMetrics")

/-- The map body of extractTasks: build the normalized record of one
task-like element, with an empty-string fallback for the duration. -/
def extractRecord (e : Element) : TaskRecord :=
  { taskId := e.businessObject.id
    name := e.businessObject.name.getD ""
    ttype := e.businessObject.btype.getD ""
    duration := some (((metricsOf e).map ExtRecord.duration).getD "") }

/-- extractTasks: filter to task-like elements and read the first
custom:taskMetrics record of each extension block. -/
def extractTasks (d : List Element) : List TaskRecord :=
  (d.filter isTask).map extractRecord

/-! ## Task metadata updater (src/utils/taskUpdater.js) -/

/-- Sanitization of the incoming duration: a falsy value (undefined or the
empty string) and the literal stringified-object sentinel coerce to the empty
string; any other string is kept. -/
def cleanDuration (dur : Option String) : String :=
  match dur with
  | none => ""
  | some s => if s ≠ "" ∧ s ≠ "[object Object]" then s else ""

/-- The block mutation inside updateTasks: set the duration of the first
custom:taskMetrics record, or append a fresh one when none exists. -/
def upsertMetrics (clean : String) : List ExtRecord → List ExtRecord
  | [] => [{ rtype := "custom:taskMetrics", duration := clean }]
  | r :: rs =>
      if r.rtype == "custom:taskMetrics" then { r with duration := clean } :: rs
      else r :: upsertMetrics clean rs

/-- The per-element effect of updateTasks: commit the upserted block (an
absent block starts from an empty values list). -/
def updateElement (e : Element) (clean : String) : Element :=
  let bo := e.businessObject
  let vals := upsertMetrics clean (bo.extensionElements.getD [])
  { e with businessObject := { bo with extensionElements := some vals } }

/-- Apply one task record: locate the element by id and update it; a missing
element is silently skipped. -/
def updateById : List Element → String → String → List Element
  | [], _, _ => []
  | e :: es, tid, clean =>
      if e.eid == tid then updateElement e clean :: es
      else e :: updateById es tid clean

/-- updateTasks from taskUpdater.js: apply every record in order. -/
def updateTasks (d : List Element) (records : List TaskRecord) : List Element :=
  records.foldl (fun acc t => updateById acc t.taskId (cleanDuration t.duration)) d

/-! ## Validation rules (validations/rules) -/

/-- One rule finding: an optional element id (none is diagram-global) and a
message. -/
structure Violation where
  elementId : Option String
  message : String
deriving DecidableEq

/-- Severity of a configured rule. -/
inductive Severity where
  | error
  | warning
  | off
deriving DecidableEq

/-- One entry of the validation output. -/
structure VResult where
  ruleId : String
  severity : Severity
  elementId : Option String
  message : String
deriving DecidableEq

/-- startEvent.rule.js: one global violation when no element has type
bpmn:StartEvent. -/
def startEventRule (els : List Element) : List Violation :=
  if (els.filter (fun e => isType e "bpmn:StartEvent")).length = 0 then
    [{ elementId := none, message := "Process must have at least one Start Event" }]
  else []

/-- endEvent.rule.js: one global violation when no element has type
bpmn:EndEvent. -/
def endEventRule (els : List Element) : List Violation :=
  if (els.filter (fun e => isType e "bpmn:EndEvent")).length = 0 then
    [{ elementId := none, message := "Process must have at least one End Event" }]
  else []

/-- Message of the orphan-elements rule. -/
def orphanMsg : String := "Element is not connected to the process flow"

/-- Body of the forEach loop of orphanElements.rule.js: skip non flow nodes,
start and end events and boundary events, then report an element with
neither incoming nor outgoing connections. -/
def orphanStep (acc : List Violation) (e : Element) : List Violation :=
  if !(isFlowNode e) then acc
  else if isType e "bpmn:StartEvent" then acc
  else if isType e "bpmn:EndEvent" then acc
  else if isBoundaryEvent e then acc
  else if e.incoming.length = 0 ∧ e.outgoing.length = 0 then
    acc ++ [{ elementId := some e.eid, message := orphanMsg }]
  else acc

/-- orphanElements.rule.js: walk all elements collecting orphan errors. -/
def orphanElementsRule (els : List Element) : List Violation :=
  els.foldl orphanStep []

/-- Message of the task-multiple-outgoing rule. -/
def taskOutgoingMsg : String :=
  "Task has multiple unconditional outgoing flows. Consider using a Gateway."

/-- The outgoing sequence flows of an element that carry no condition
expression (taskOutgoing.rule.js lines 12-17). -/
def unconditionalOutgoing (e : Element) : List Connection :=
  (e.outgoing.filter (fun f => f.ctype == "bpmn:SequenceFlow")).filter
    (fun f => !f.hasCondition)

/-- Body of the forEach loop of taskOutgoing.rule.js: skip non task-like
elements, then warn once when more than one unconditional outgoing sequence
flow exists. -/
def taskOutgoingStep (acc : List Violation) (e : Element) : List Violation :=
  if !(isTask e) then acc
  else if 1 < (unconditionalOutgoing e).length then
    acc ++ [{ elementId := some e.eid, message := taskOutgoingMsg }]
  else acc

/-- taskOutgoing.rule.js: walk all elements collecting warnings. -/
def taskMultipleOutgoingRule (els : List Element) : List Violation :=
  els.foldl taskOutgoingStep []

/-! ## Rule orchestration (validations/index.js, part_005 lines 460-509) -/

/-- The rule registry object: the four registered rule ids. -/
def ruleRegistry (rid : String) : Option (List Element → List Violation) :=
  if rid = "start-event-required" then some startEventRule
  else if rid = "end-event-required" then some endEventRule
  else if rid = "no-orphan-elements" then some orphanElementsRule
  else if rid = "task-multiple-outgoing" then some taskMultipleOutgoingRule
  else none

/-- The or-global fallback of the dedup key: a missing or empty element id
becomes the word global. -/
def jsOrGlobal (o : Option String) : String :=
  match o with
  | none => "global"
  | some s => if s = "" then "global" else s

/-- The string dedup key built in validateDiagram. -/
def violKey (rid : String) (v : Violation) : String :=
  rid ++ "-" ++ jsOrGlobal v.elementId

/-- The element id as stored in a result: a falsy id becomes null. -/
def storedElementId (o : Option String) : Option String :=
  match o with
  | none => none
  | some s => if s = "" then none else some s

/-- Inner loop of validateDiagram: fold the violations of one rule into the
seen-key set and the ordered result list. -/
def processViolations (rid : String) (sev : Severity) :
    List Violation → List String × List VResult → List String × List VResult
  | [], st => st
  | v :: vs, (seen, results) =>
      let key := violKey rid v
      if key ∈ seen then processViolations rid sev vs (seen, results)
      else
        processViolations rid sev vs
          (key :: seen,
           results ++ [{ ruleId := rid, severity := sev,
                         elementId := storedElementId v.elementId,
                         message := v.message }])

/-- Outer loop of validateDiagram over the configuration entries, skipping
entries with severity off and entries without a registered rule. -/
def validateLoop (d : List Element) :
    List (String × Severity) → List String × List VResult → List String × List VResult
  | [], st => st
  | (rid, sev) :: rest, st =>
      if sev = Severity.off then validateLoop d rest st
      else
        match ruleRegistry rid with
        | none => validateLoop d rest st
        | some rule => validateLoop d rest (processViolations rid sev (rule d) st)

/-- The record returned by validateDiagram. -/
structure ValidationOutput where
  errors : List VResult
  warnings : List VResult
  all : List VResult
deriving DecidableEq

/-- validateDiagram from validations/index.js: run the configured rules in
configuration order with deduplication, then bucket by severity. -/
def validateDiagram (d : List Element) (config : List (String × Severity)) :
    ValidationOutput :=
  let results := (validateLoop d config ([], [])).2
  { errors := results.filter (fun r => r.severity == Severity.error)
    warnings := results.filter (fun r => r.severity == Severity.warning)
    all := results }

/-! ## Bottleneck analyzer (part_001 lines 19-73) -/

/-- The marker state of the canvas: element id and marker name pairs. -/
abbrev Markers := List (String × String)

/-- canvas.removeMarker: drop the pair; absent pairs are a silent no-op. -/
def removeMarker (ms : Markers) (id mk : String) : Markers :=
  ms.filter (fun p => !(p.1 == id && p.2 == mk))

/-- canvas.addMarker: add the pair once; idempotent. -/
def addMarker (ms : Markers) (id mk : String) : Markers :=
  if (id, mk) ∈ ms then ms else ms ++ [(id, mk)]

/-- Body of the clearing pass: remove the bottleneck-high marker from one
task-like element. -/
def clearStep (acc : Markers) (e : Element) : Markers :=
  if isTask e then removeMarker acc e.eid "bottleneck-high" else acc

/-- clearBottleneckColors: remove the bottleneck-high marker from every
task-like element. -/
def clearBottleneckColors (d : List Element) (ms : Markers) : Markers :=
  d.foldl clearStep ms

/-- The call parseDuration(task.duration) on a possibly undefined duration:
undefined is falsy and parses to 0. -/
def parseDurationOpt (dur : Option String) : Int :=
  match dur with
  | none => 0
  | some s => parseDuration s

/-- The tasksWithDuration intermediate of applyBottleneckColors: pair every
task with its total minutes and keep the strictly positive ones. -/
def tasksWithDuration (tasks : List TaskRecord) : List (TaskRecord × Int) :=
  (tasks.map (fun t => (t, parseDurationOpt t.duration))).filter (fun p => 0 < p.2)

/-- One step of the max-finding loop of applyBottleneckColors. -/
def pickStep (acc : Int × Option TaskRecord) (p : TaskRecord × Int) :
    Int × Option TaskRecord :=
  if acc.1 < p.2 then (p.2, some p.1) else acc

/-- The max-finding loop of applyBottleneckColors: running max starts at 0,
the first task to strictly exceed it wins ties. -/
def pickBottleneck (l : List (TaskRecord × Int)) : Option TaskRecord :=
  (l.foldl pickStep ((0 : Int), none)).2

/-- applyBottleneckColors from part_001: clear all existing markers, then mark
the single highest-duration task when a strictly positive duration exists. -/
def applyBottleneckColors (d : List Element) (tasks : List TaskRecord) (ms : Markers) :
    Markers :=
  if (tasksWithDuration tasks).length = 0 then clearBottleneckColors d ms
  else
    match pickBottleneck (tasksWithDuration tasks) with
    | none => clearBottleneckColors d ms
    | some t =>
        match findById d t.taskId with
        | none => clearBottleneckColors d ms
        | some e => addMarker (clearBottleneckColors d ms) e.eid "bottleneck-high"

/-! ## Concrete fixtures used by scenario clauses and witnesses -/

/-- A plain task-like element without connections or metadata. -/
def mkTask (id : String) (nm : String) : Element :=
  { eid := id
    businessObject :=
      { id := id, name := some nm, btype := some "bpmn:Task",
        attachedToRef := false, extensionElements := none }
    incoming := []
    outgoing := [] }

/-- Scenario diagram: three plain tasks A, B, C. -/
def exDiagram : List Element := [mkTask "A" "Task A", mkTask "B" "Task B", mkTask "C" "Task C"]

/-- Scenario task list: A with one hour, B with two hours, C without a
duration. -/
def exTasks : List TaskRecord :=
  [{ taskId := "A", name := "Task A", ttype := "bpmn:Task", duration := some "01:00" },
   { taskId := "B", name := "Task B", ttype := "bpmn:Task", duration := some "02:00" },
   { taskId := "C", name := "Task C", ttype := "bpmn:Task", duration := none }]

/-- One-task diagram for the round-trip analysis. -/
def cexDiagram : List Element := [mkTask "T1" "Task 1"]

/-- A record list addressing T1 twice with different durations. -/
def cexRecords : List TaskRecord :=
  [{ taskId := "T1", name := "Task 1", ttype := "bpmn:Task", duration := some "01:00" },
   { taskId := "T1", name := "Task 1", ttype := "bpmn:Task", duration := some "02:00" }]

example : applyBottleneckColors exDiagram exTasks [] = [("B", "bottleneck-high")] := by decide
example : clearBottleneckColors exDiagram [("B", "bottleneck-high")] = [] := by decide
example :
    extractTasks (updateTasks cexDiagram cexRecords)
      = [{ taskId := "T1", name := "Task 1", ttype := "bpmn:Task", duration := some "02:00" }] := by
  decide
example :
    validateDiagram [] [("task-multiple-outgoing", Severity.off), ("start-event-required", Severity.error)]
      = validateDiagram [] [("start-event-required", Severity.error)] := by decide

/-- A task list whose only member carries a negative duration string. -/
def negTasks : List TaskRecord :=
  [{ taskId := "T1", name := "Task 1", ttype := "bpmn:Task", duration := some "-2:30" }]

/-! ## Supporting lemmas -/

/-- When no task parses to a strictly positive number of minutes, the filtered
tasksWithDuration list is empty. -/
lemma tasksWithDuration_eq_nil {tasks : List TaskRecord}
    (h : ∀ t ∈ tasks, parseDurationOpt t.duration ≤ 0) :
    tasksWithDuration tasks = [] := by
  unfold tasksWithDuration
  rw [List.filter_eq_nil_iff]
  intro p hp
  obtain ⟨t, ht, rfl⟩ := List.mem_map.mp hp
  simpa using h t ht

/-- When no task parses to a strictly positive number of minutes,
applyBottleneckColors only performs its clearing pass. -/
lemma applyBottleneck_of_no_positive (d : List Element) (tasks : List TaskRecord)
    (ms : Markers) (h : ∀ t ∈ tasks, parseDurationOpt t.duration ≤ 0) :
    applyBottleneckColors d tasks ms = clearBottleneckColors d ms := by
  unfold applyBottleneckColors
  rw [tasksWithDuration_eq_nil h]
  rfl

/-- The dedup key of a stored result, as the string built by validateDiagram. -/
def resultKey (r : VResult) : String :=
  r.ruleId ++ "-" ++ r.elementId.getD "global"

/-- The dedup key of a stored result, as the pair named by the specification. -/
def resultPairKey (r : VResult) : String × String :=
  (r.ruleId, r.elementId.getD "global")

lemma jsOrGlobal_eq_stored (o : Option String) :
    jsOrGlobal o = (storedElementId o).getD "global" := by
  cases o with
  | none => rfl
  | some s => by_cases hs : s = "" <;> simp [jsOrGlobal, storedElementId, hs]

/-- Loop invariant of validateDiagram: every recorded result key is in the
seen set and the recorded keys are pairwise distinct. -/
def DedupInv (st : List String × List VResult) : Prop :=
  (∀ r ∈ st.2, resultKey r ∈ st.1) ∧ (st.2.map resultKey).Nodup

lemma processViolations_inv (rid : String) (sev : Severity) :
    ∀ (vs : List Violation) (st : List String × List VResult),
      DedupInv st → DedupInv (processViolations rid sev vs st) := by
  intro vs
  induction vs with
  | nil => intro st h; exact h
  | cons v vs ih =>
      rintro ⟨seen, results⟩ h
      by_cases hk : violKey rid v ∈ seen
      · simpa [processViolations, hk] using ih _ h
      · have hkey :
            resultKey { ruleId := rid, severity := sev,
                        elementId := storedElementId v.elementId,
                        message := v.message } = violKey rid v := by
          simp [resultKey, violKey, jsOrGlobal_eq_stored]
        have hnew :
            DedupInv (violKey rid v :: seen,
              results ++ [{ ruleId := rid, severity := sev,
                            elementId := storedElementId v.elementId,
                            message := v.message }]) := by
          constructor
          · intro r hr
            rcases List.mem_append.mp hr with hr | hr
            · exact List.mem_cons_of_mem _ (h.1 r hr)
            · rcases List.mem_singleton.mp hr with rfl
              rw [hkey]
              exact List.mem_cons_self _ _
          · rw [List.map_append]
            simp only [List.map_cons, List.map_nil, hkey]
            rw [List.nodup_append]
            refine ⟨h.2, List.nodup_singleton _, ?_⟩
            intro k hk1 hk2
            rcases List.mem_singleton.mp hk2 with rfl
            obtain ⟨r, hr, hrk⟩ := List.mem_map.mp hk1
            exact hk (hrk ▸ h.1 r hr)
        simpa [processViolations, hk] using ih _ hnew

lemma validateLoop_inv (d : List Element) :
    ∀ (cfg : List (String × Severity)) (st : List String × List VResult),
      DedupInv st → DedupInv (validateLoop d cfg st) := by
  intro cfg
  induction cfg with
  | nil => intro st h; exact h
  | cons e rest ih =>
      obtain ⟨rid, sev⟩ := e
      intro st h
      by_cases hoff : sev = Severity.off
      · simpa [validateLoop, hoff] using ih st h
      · cases hreg : ruleRegistry rid with
        | none => simpa [validateLoop, hoff, hreg] using ih st h
        | some rule =>
            simpa [validateLoop, hoff, hreg] using
              ih _ (processViolations_inv rid sev (rule d) st h)

lemma validateLoop_skip (d : List Element) (cfg₂ : List (String × Severity))
    (rid : String) (sev : Severity)
    (h : sev = Severity.off ∨ ruleRegistry rid = none) :
    ∀ (cfg₁ : List (String × Severity)) (st : List String × List VResult),
      validateLoop d (cfg₁ ++ (rid, sev) :: cfg₂) st = validateLoop d (cfg₁ ++ cfg₂) st := by
  intro cfg₁
  induction cfg₁ with
  | nil =>
      intro st
      rcases h with h | h
      · simp [validateLoop, h]
      · by_cases hoff : sev = Severity.off
        · simp [validateLoop, hoff]
        · simp [validateLoop, hoff, h]
  | cons e rest ih =>
      obtain ⟨rid1, sev1⟩ := e
      intro st
      by_cases hoff : sev1 = Severity.off
      · simp [validateLoop, hoff, ih]
      · cases hreg : ruleRegistry rid1 with
        | none => simp [validateLoop, hoff, hreg, ih]
        | some rule => simp [validateLoop, hoff, hreg, ih]

lemma processViolations_keep (rid : String) (sev : Severity) (P : VResult → Prop)
    (hpush : ∀ v : Violation,
       P { ruleId := rid, severity := sev, elementId := storedElementId v.elementId,
           message := v.message }) :
    ∀ (vs : List Violation) (st : List String × List VResult),
      (∀ r ∈ st.2, P r) → ∀ r ∈ (processViolations rid sev vs st).2, P r := by
  intro vs
  induction vs with
  | nil => intro st h; exact h
  | cons v vs ih =>
      rintro ⟨seen, results⟩ h
      by_cases hk : violKey rid v ∈ seen
      · intro r hr
        exact ih _ h r (by simpa [processViolations, hk] using hr)
      · intro r hr
        refine ih _ ?_ r (by simpa [processViolations, hk] using hr)
        intro r2 hr2
        rcases List.mem_append.mp hr2 with h2 | h2
        · exact h r2 h2
        · rcases List.mem_singleton.mp h2 with rfl
          exact hpush v

lemma validateLoop_results (d : List Element) (P : VResult → Prop)
    (hpush : ∀ (rid : String) (sev : Severity) (rule : List Element → List Violation),
       sev ≠ Severity.off → ruleRegistry rid = some rule →
       ∀ v : Violation,
         P { ruleId := rid, severity := sev, elementId := storedElementId v.elementId,
             message := v.message }) :
    ∀ (cfg : List (String × Severity)) (st : List String × List VResult),
      (∀ r ∈ st.2, P r) → ∀ r ∈ (validateLoop d cfg st).2, P r := by
  intro cfg
  induction cfg with
  | nil => intro st h; exact h
  | cons e rest ih =>
      obtain ⟨rid, sev⟩ := e
      intro st h
      by_cases hoff : sev = Severity.off
      · intro r hr
        exact ih st h r (by simpa [validateLoop, hoff] using hr)
      · cases hreg : ruleRegistry rid with
        | none =>
            intro r hr
            exact ih st h r (by simpa [validateLoop, hoff, hreg] using hr)
        | some rule =>
            intro r hr
            refine ih _ (processViolations_keep rid sev P (hpush rid sev rule hoff hreg) (rule d) st h) r ?_
            simpa [validateLoop, hoff, hreg] using hr

/-- The metadata records of an element other than custom:taskMetrics. -/
def nonMetrics (e : Element) : List ExtRecord :=
  (e.businessObject.extensionElements.getD []).filter
    (fun v => !(v.rtype == "custom:taskMetrics"))

/-- The frame of an element under updateTasks: its id and its unrelated
metadata records. -/
def frameProj (e : Element) : String × List ExtRecord :=
  (e.eid, nonMetrics e)

lemma filter_nonMetrics_upsert (clean : String) (vals : List ExtRecord) :
    (upsertMetrics clean vals).filter (fun v => !(v.rtype == "custom:taskMetrics"))
      = vals.filter (fun v => !(v.rtype == "custom:taskMetrics")) := by
  induction vals with
  | nil => simp [upsertMetrics]
  | cons r rs ih =>
      by_cases hr : r.rtype = "custom:taskMetrics"
      · simp [upsertMetrics, hr]
      · simp [upsertMetrics, hr, ih]

lemma frameProj_updateElement (e : Element) (clean : String) :
    frameProj (updateElement e clean) = frameProj e := by
  unfold frameProj updateElement nonMetrics
  simp [filter_nonMetrics_upsert]

lemma updateById_frame (tid clean : String) :
    ∀ d : List Element, (updateById d tid clean).map frameProj = d.map frameProj := by
  intro d
  induction d with
  | nil => rfl
  | cons e es ih =>
      by_cases he : e.eid == tid
      · simp [updateById, he, frameProj_updateElement]
      · simp [updateById, he, ih]

/-- More than one unconditional outgoing sequence flow. -/
def hasMultipleUnconditional (e : Element) : Bool :=
  decide (1 < (unconditionalOutgoing e).length)

/-- A flow node that is neither a start event, an end event nor a boundary
event. -/
def orphanEligible (e : Element) : Bool :=
  isFlowNode e && !(isType e "bpmn:StartEvent") && !(isType e "bpmn:EndEvent")
    && !(isBoundaryEvent e)

/-- An eligible flow node with neither incoming nor outgoing connections. -/
def isOrphan (e : Element) : Bool :=
  orphanEligible e && (e.incoming.length == 0) && (e.outgoing.length == 0)

lemma taskOutgoingStep_eq (acc : List Violation) (e : Element) :
    taskOutgoingStep acc e
      = if isTask e && hasMultipleUnconditional e then
          acc ++ [{ elementId := some e.eid, message := taskOutgoingMsg }]
        else acc := by
  by_cases ht : isTask e
  · by_cases hm : 1 < (unconditionalOutgoing e).length
    · simp [taskOutgoingStep, hasMultipleUnconditional, ht, hm]
    · simp [taskOutgoingStep, hasMultipleUnconditional, ht, hm]
  · simp [taskOutgoingStep, ht]

lemma orphanStep_eq (acc : List Violation) (e : Element) :
    orphanStep acc e
      = if isOrphan e then acc ++ [{ elementId := some e.eid, message := orphanMsg }]
        else acc := by
  by_cases hf : isFlowNode e
  · by_cases hs : isType e "bpmn:StartEvent"
    · simp [orphanStep, isOrphan, orphanEligible, hf, hs]
    · by_cases hen : isType e "bpmn:EndEvent"
      · simp [orphanStep, isOrphan, orphanEligible, hf, hs, hen]
      · by_cases hb : isBoundaryEvent e
        · simp [orphanStep, isOrphan, orphanEligible, hf, hs, hen, hb]
        · by_cases hio : e.incoming.length = 0 ∧ e.outgoing.length = 0
          · simp [orphanStep, isOrphan, orphanEligible, hf, hs, hen, hb, hio,
              hio.1, hio.2]
          · rcases Decidable.not_and_iff_or_not.mp hio with hi | ho
            · simp [orphanStep, isOrphan, orphanEligible, hf, hs, hen, hb, hio, hi,
                List.length_eq_zero]
            · simp [orphanStep, isOrphan, orphanEligible, hf, hs, hen, hb, hio, ho,
                List.length_eq_zero]
  · simp [orphanStep, isOrphan, orphanEligible, hf]

lemma foldl_push_aux (p : Element → Bool) (g : Element → Violation)
    (step : List Violation → Element → List Violation)
    (hstep : ∀ acc e, step acc e = if p e then acc ++ [g e] else acc) :
    ∀ (els : List Element) (acc : List Violation),
      els.foldl step acc = acc ++ (els.filter p).map g := by
  intro els
  induction els with
  | nil => intro acc; simp
  | cons e es ih =>
      intro acc
      rw [List.foldl_cons, hstep, List.filter_cons]
      by_cases hp : p e
      · simp [hp, ih]
      · simp [hp, ih]

lemma countP_eid_nodup (q : Element → Bool) :
    ∀ els : List Element, (els.map Element.eid).Nodup →
      ∀ e ∈ els, els.countP (fun x => (x.eid == e.eid) && q x) = if q e then 1 else 0 := by
  intro els
  induction els with
  | nil => intro _ e he; cases he
  | cons h t ih =>
      intro hnd e he
      rw [List.map_cons, List.nodup_cons] at hnd
      rcases List.mem_cons.mp he with rfl | he
      · have hzero : t.countP (fun x => (x.eid == e.eid) && q x) = 0 := by
          rw [List.countP_eq_zero]
          intro x hx
          have hne : x.eid ≠ e.eid := by
            intro hc
            exact hnd.1 (hc ▸ List.mem_map_of_mem Element.eid hx)
          simp [hne]
        rw [List.countP_cons, hzero]
        by_cases hq : q e <;> simp [hq]
      · have hne : h.eid ≠ e.eid := by
          intro hc
          exact hnd.1 (hc ▸ List.mem_map_of_mem Element.eid he)
        have hh : ((h.eid == e.eid) && q h) = false := by simp [hne]
        rw [List.countP_cons, hh]
        simpa using ih hnd.2 e he

lemma removeMarker_not_mem (ms : Markers) (id mk : String) :
    (id, mk) ∉ removeMarker ms id mk := by
  unfold removeMarker
  intro hmem
  have h := (List.mem_filter.mp hmem).2
  simp at h

lemma clearStep_subset (ms : Markers) (e : Element) : ∀ x ∈ clearStep ms e, x ∈ ms := by
  intro x hx
  unfold clearStep at hx
  by_cases ht : isTask e
  · rw [if_pos ht] at hx
    exact (List.mem_filter.mp hx).1
  · rwa [if_neg ht] at hx

lemma clear_subset :
    ∀ (d : List Element) (ms : Markers), ∀ x ∈ clearBottleneckColors d ms, x ∈ ms := by
  intro d
  induction d with
  | nil => intro ms x hx; exact hx
  | cons e es ih =>
      intro ms x hx
      exact clearStep_subset ms e x (ih (clearStep ms e) x hx)

lemma clear_no_task_marker :
    ∀ (d : List Element) (ms : Markers), ∀ e ∈ d, isTask e = true →
      (e.eid, "bottleneck-high") ∉ clearBottleneckColors d ms := by
  intro d
  induction d with
  | nil => intro ms e he; cases he
  | cons f fs ih =>
      intro ms e he ht hmem
      rcases List.mem_cons.mp he with rfl | he
      · have hsub : (e.eid, "bottleneck-high") ∈ clearStep ms e :=
          clear_subset fs (clearStep ms e) _ hmem
        unfold clearStep at hsub
        rw [if_pos ht] at hsub
        exact removeMarker_not_mem ms e.eid "bottleneck-high" hsub
      · exact ih (clearStep ms f) e he ht hmem

lemma addMarker_mem (ms : Markers) (id mk : String) (x : String × String) :
    x ∈ addMarker ms id mk ↔ x ∈ ms ∨ x = (id, mk) := by
  unfold addMarker
  by_cases hmem : (id, mk) ∈ ms
  · rw [if_pos hmem]
    constructor
    · exact Or.inl
    · rintro (h | rfl)
      · exact h
      · exact hmem
  · rw [if_neg hmem]
    simp

lemma tasksWithDuration_mem {tasks : List TaskRecord} {p : TaskRecord × Int}
    (hp : p ∈ tasksWithDuration tasks) :
    p.1 ∈ tasks ∧ p.2 = parseDurationOpt p.1.duration ∧ 0 < p.2 := by
  unfold tasksWithDuration at hp
  have h1 := List.mem_filter.mp hp
  obtain ⟨t, ht, rfl⟩ := List.mem_map.mp h1.1
  exact ⟨ht, rfl, by simpa using h1.2⟩

lemma mem_tasksWithDuration {tasks : List TaskRecord} {t : TaskRecord}
    (ht : t ∈ tasks) (hpos : 0 < parseDurationOpt t.duration) :
    (t, parseDurationOpt t.duration) ∈ tasksWithDuration tasks := by
  unfold tasksWithDuration
  exact List.mem_filter.mpr ⟨List.mem_map_of_mem _ ht, by simpa using hpos⟩

/-- Behaviour of the max-finding loop: either nothing exceeds the seed and
the accumulator is returned, or the list splits at the first entry attaining
the overall maximum, which is returned. -/
lemma pick_aux :
    ∀ (l : List (TaskRecord × Int)) (m₀ : Int) (b₀ : Option TaskRecord),
      (l.foldl pickStep (m₀, b₀) = (m₀, b₀) ∧ ∀ p ∈ l, p.2 ≤ m₀)
      ∨ (∃ l₁ t M l₂, l = l₁ ++ (t, M) :: l₂ ∧ m₀ < M
           ∧ (∀ q ∈ l₁, q.2 < M) ∧ (∀ q ∈ l₂, q.2 ≤ M)
           ∧ l.foldl pickStep (m₀, b₀) = (M, some t)) := by
  intro l
  induction l with
  | nil => intro m₀ b₀; exact Or.inl ⟨rfl, by simp⟩
  | cons p ps ih =>
      intro m₀ b₀
      rw [List.foldl_cons]
      by_cases hgt : m₀ < p.2
      · have hstep : pickStep (m₀, b₀) p = (p.2, some p.1) := by
          simp [pickStep, hgt]
        rw [hstep]
        rcases ih p.2 (some p.1) with ⟨heq, hall⟩ | ⟨l₁, t, M, l₂, hsplit, hlt, hbefore, hafter, heq⟩
        · refine Or.inr ⟨[], p.1, p.2, ps, by simp, hgt, by simp, hall, heq⟩
        · refine Or.inr ⟨p :: l₁, t, M, l₂, by rw [List.cons_append, ← hsplit], lt_trans hgt hlt, ?_, hafter, heq⟩
          intro q hq
          rcases List.mem_cons.mp hq with rfl | hq
          · exact hlt
          · exact hbefore q hq
      · have hle : p.2 ≤ m₀ := le_of_not_lt hgt
        have hstep : pickStep (m₀, b₀) p = (m₀, b₀) := by
          simp [pickStep, hgt]
        rw [hstep]
        rcases ih m₀ b₀ with ⟨heq, hall⟩ | ⟨l₁, t, M, l₂, hsplit, hlt, hbefore, hafter, heq⟩
        · refine Or.inl ⟨heq, ?_⟩
          intro q hq
          rcases List.mem_cons.mp hq with rfl | hq
          · exact hle
          · exact hall q hq
        · refine Or.inr ⟨p :: l₁, t, M, l₂, by rw [List.cons_append, ← hsplit], hlt, ?_, hafter, heq⟩
          intro q hq
          rcases List.mem_cons.mp hq with rfl | hq
          · exact lt_of_le_of_lt hle hlt
          · exact hbefore q hq

/-- Soundness of pickBottleneck over the filtered task list: the chosen task
is a positive-duration member attaining the maximum, and it is the first
attainer in iteration order. -/
lemma pickBottleneck_sound {tasks : List TaskRecord} {t₀ : TaskRecord}
    (hpick : pickBottleneck (tasksWithDuration tasks) = some t₀) :
    t₀ ∈ tasks ∧ 0 < parseDurationOpt t₀.duration
    ∧ (∀ t ∈ tasks, parseDurationOpt t.duration ≤ parseDurationOpt t₀.duration)
    ∧ ∃ l₁ l₂, tasksWithDuration tasks = l₁ ++ (t₀, parseDurationOpt t₀.duration) :: l₂
        ∧ ∀ q ∈ l₁, q.2 < parseDurationOpt t₀.duration := by
  unfold pickBottleneck at hpick
  rcases pick_aux (tasksWithDuration tasks) 0 none with
    ⟨heq, _⟩ | ⟨l₁, t, M, l₂, hsplit, hlt, hbefore, hafter, heq⟩
  · rw [heq] at hpick
    cases hpick
  · rw [heq] at hpick
    have ht0 : t = t₀ := by simpa using hpick
    subst ht0
    have hmem : (t, M) ∈ tasksWithDuration tasks := by
      rw [hsplit]
      exact List.mem_append_right _ (List.mem_cons_self _ _)
    obtain ⟨htt, hM, _⟩ := tasksWithDuration_mem hmem
    simp only at hM
    subst hM
    have hall : ∀ q ∈ tasksWithDuration tasks, q.2 ≤ parseDurationOpt t.duration := by
      rw [hsplit]
      intro q hq
      rcases List.mem_append.mp hq with hq | hq
      · exact le_of_lt (hbefore q hq)
      · rcases List.mem_cons.mp hq with rfl | hq
        · exact le_refl _
        · exact hafter q hq
    refine ⟨htt, hlt, ?_, l₁, l₂, hsplit, hbefore⟩
    intro t2 ht2
    by_cases hpos : 0 < parseDurationOpt t2.duration
    · exact hall (t2, parseDurationOpt t2.duration) (mem_tasksWithDuration ht2 hpos)
    · exact le_trans (le_of_not_lt hpos) (le_of_lt hlt)

/-- In the positive case, applyBottleneckColors is the clearing pass followed
by one addMarker on the element of the chosen task. -/
lemma apply_pos_case {d : List Element} {tasks : List TaskRecord}
    {t₀ : TaskRecord} {e₀ : Element} (ms : Markers)
    (hpick : pickBottleneck (tasksWithDuration tasks) = some t₀)
    (hfind : findById d t₀.taskId = some e₀) :
    applyBottleneckColors d tasks ms
      = addMarker (clearBottleneckColors d ms) e₀.eid "bottleneck-high" := by
  have hne : tasksWithDuration tasks ≠ [] := by
    intro hcon
    rw [hcon] at hpick
    cases hpick
  have hlen : ¬ (tasksWithDuration tasks).length = 0 := by
    simpa [List.length_eq_zero] using hne
  unfold applyBottleneckColors
  rw [if_neg hlen, hpick]
  show (match findById d t₀.taskId with
    | none => clearBottleneckColors d ms
    | some e => addMarker (clearBottleneckColors d ms) e.eid "bottleneck-high") = _
  rw [hfind]

lemma updateElement_eid (e : Element) (c : String) : (updateElement e c).eid = e.eid := rfl

lemma findById_cons (e : Element) (es : List Element) (tid : String) :
    findById (e :: es) tid = if e.eid == tid then some e else findById es tid := by
  unfold findById
  cases h : (e.eid == tid) <;> simp [List.find?, h]

lemma updateById_cons (e : Element) (es : List Element) (tid c : String) :
    updateById (e :: es) tid c
      = if e.eid == tid then updateElement e c :: es else e :: updateById es tid c := rfl

lemma findById_updateById_self :
    ∀ (d : List Element) (tid c : String),
      findById (updateById d tid c) tid = (findById d tid).map (fun e => updateElement e c) := by
  intro d tid c
  induction d with
  | nil => rfl
  | cons e es ih =>
      rw [updateById_cons]
      by_cases he : (e.eid == tid) = true
      · rw [if_pos he, findById_cons, findById_cons, updateElement_eid, if_pos he, if_pos he]
        rfl
      · rw [if_neg he, findById_cons, findById_cons, if_neg he, if_neg he]
        exact ih

lemma findById_updateById_other :
    ∀ (d : List Element) (tid c tid2 : String), tid2 ≠ tid →
      findById (updateById d tid c) tid2 = findById d tid2 := by
  intro d tid c tid2 hne
  induction d with
  | nil => rfl
  | cons e es ih =>
      rw [updateById_cons]
      by_cases he : (e.eid == tid) = true
      · have heid : e.eid = tid := by simpa using he
        have hne2 : ((e.eid == tid2) = false) := by
          rw [heid]
          simp only [beq_eq_false_iff_ne, ne_eq]
          intro hc
          exact hne hc.symm
        rw [if_pos he, findById_cons, findById_cons, updateElement_eid, hne2]
        simp
      · rw [if_neg he, findById_cons, findById_cons]
        by_cases he2 : (e.eid == tid2) = true
        · rw [if_pos he2, if_pos he2]
        · rw [if_neg he2, if_neg he2]
          exact ih

lemma findById_updateTasks_other :
    ∀ (R : List TaskRecord) (d : List Element) (tid : String),
      (∀ r ∈ R, r.taskId ≠ tid) →
      findById (updateTasks d R) tid = findById d tid := by
  intro R
  induction R with
  | nil => intro d tid _; rfl
  | cons r R ih =>
      intro d tid h
      have h1 : tid ≠ r.taskId := Ne.symm (h r (List.mem_cons_self _ _))
      have h2 : ∀ r2 ∈ R, r2.taskId ≠ tid := fun r2 hr2 => h r2 (List.mem_cons_of_mem _ hr2)
      calc findById (updateTasks d (r :: R)) tid
          = findById (updateById d r.taskId (cleanDuration r.duration)) tid := ih _ tid h2
        _ = findById d tid := findById_updateById_other _ _ _ _ h1

lemma findById_eq_of_mem :
    ∀ d : List Element, (d.map Element.eid).Nodup →
      ∀ e ∈ d, findById d e.eid = some e := by
  intro d
  induction d with
  | nil => intro _ e he; cases he
  | cons f fs ih =>
      intro hnd e he
      rw [List.map_cons, List.nodup_cons] at hnd
      rcases List.mem_cons.mp he with rfl | he
      · rw [findById_cons, if_pos (by simp)]
      · have hne : ¬ ((f.eid == e.eid) = true) := by
          simp only [beq_iff_eq]
          intro hc
          have hmem : f.eid ∈ List.map Element.eid fs := by
            rw [hc]
            exact List.mem_map_of_mem Element.eid he
          exact hnd.1 hmem
        rw [findById_cons, if_neg hne]
        exact ih hnd.2 e he

lemma eq_of_mem_nodup_eid :
    ∀ d : List Element, (d.map Element.eid).Nodup →
      ∀ x ∈ d, ∀ y ∈ d, x.eid = y.eid → x = y := by
  intro d
  induction d with
  | nil => intro _ x hx; cases hx
  | cons h t ih =>
      intro hnd x hx y hy hxy
      rw [List.map_cons, List.nodup_cons] at hnd
      rcases List.mem_cons.mp hx with hxh | hx <;> rcases List.mem_cons.mp hy with hyh | hy
      · rw [hxh, hyh]
      · have hmem : h.eid ∈ List.map Element.eid t := by
          rw [show h.eid = y.eid from by rw [← hxh]; exact hxy]
          exact List.mem_map_of_mem Element.eid hy
        exact absurd hmem hnd.1
      · have hmem : h.eid ∈ List.map Element.eid t := by
          rw [show h.eid = x.eid from by rw [← hyh]; exact hxy.symm]
          exact List.mem_map_of_mem Element.eid hx
        exact absurd hmem hnd.1
      · exact ih hnd.2 x hx y hy hxy

lemma updateById_eids :
    ∀ (d : List Element) (tid c : String),
      (updateById d tid c).map Element.eid = d.map Element.eid := by
  intro d tid c
  induction d with
  | nil => rfl
  | cons e es ih =>
      by_cases he : (e.eid == tid) = true
      · simp [updateById, he, updateElement_eid]
      · simp [updateById, he, ih]

lemma updateTasks_eids :
    ∀ (R : List TaskRecord) (d : List Element),
      (updateTasks d R).map Element.eid = d.map Element.eid := by
  intro R
  induction R with
  | nil => intro d; rfl
  | cons r R ih =>
      intro d
      calc (updateTasks d (r :: R)).map Element.eid
          = (updateById d r.taskId (cleanDuration r.duration)).map Element.eid := ih _
        _ = d.map Element.eid := updateById_eids _ _ _

lemma mem_updateById :
    ∀ (d : List Element) (tid c : String), ∀ x ∈ updateById d tid c,
      x ∈ d ∨ ∃ e, e ∈ d ∧ x = updateElement e c := by
  intro d tid c
  induction d with
  | nil => intro x hx; cases hx
  | cons e es ih =>
      intro x hx
      rw [updateById_cons] at hx
      by_cases he : (e.eid == tid) = true
      · rw [if_pos he] at hx
        rcases List.mem_cons.mp hx with rfl | hx
        · exact Or.inr ⟨e, List.mem_cons_self _ _, rfl⟩
        · exact Or.inl (List.mem_cons_of_mem _ hx)
      · rw [if_neg he] at hx
        rcases List.mem_cons.mp hx with rfl | hx
        · exact Or.inl (List.mem_cons_self _ _)
        · rcases ih x hx with h | ⟨e2, he2, rfl⟩
          · exact Or.inl (List.mem_cons_of_mem _ h)
          · exact Or.inr ⟨e2, List.mem_cons_of_mem _ he2, rfl⟩

lemma updateTasks_preserve (P : Element → Prop)
    (hP : ∀ (e : Element) (c : String), P e → P (updateElement e c)) :
    ∀ (R : List TaskRecord) (d : List Element),
      (∀ e ∈ d, P e) → ∀ e ∈ updateTasks d R, P e := by
  intro R
  induction R with
  | nil => intro d h; exact h
  | cons r R ih =>
      intro d h
      apply ih
      intro e he
      rcases mem_updateById d r.taskId (cleanDuration r.duration) e he with he2 | ⟨e2, he2, rfl⟩
      · exact h e he2
      · exact hP e2 _ (h e2 he2)

lemma find_upsertMetrics (c : String) :
    ∀ vals : List ExtRecord,
      (upsertMetrics c vals).find? (fun v => v.rtype == "custom:taskMetrics")
        = some { rtype := "custom:taskMetrics", duration := c } := by
  intro vals
  induction vals with
  | nil => simp [upsertMetrics, List.find?]
  | cons r rs ih =>
      by_cases hr : r.rtype = "custom:taskMetrics"
      · simp [upsertMetrics, hr, List.find?]
      · simp [upsertMetrics, hr, List.find?, ih]

lemma metricsOf_updateElement (e : Element) (c : String) :
    metricsOf (updateElement e c) = some { rtype := "custom:taskMetrics", duration := c } := by
  unfold metricsOf updateElement
  simp [find_upsertMetrics]

lemma isTask_updateElement (e : Element) (c : String) :
    isTask (updateElement e c) = isTask e := rfl

lemma boId_updateElement (e : Element) (c : String) :
    (updateElement e c).businessObject.id = e.businessObject.id := rfl

/-- The number of custom:taskMetrics records in the extension block of an
element. -/
def metricsCount (e : Element) : Nat :=
  ((e.businessObject.extensionElements.getD []).filter
    (fun v => v.rtype == "custom:taskMetrics")).length

lemma length_filter_upsert (c : String) :
    ∀ vals : List ExtRecord,
      ((upsertMetrics c vals).filter (fun v => v.rtype == "custom:taskMetrics")).length
        = if ((vals.filter (fun v => v.rtype == "custom:taskMetrics")).length = 0) then 1
          else (vals.filter (fun v => v.rtype == "custom:taskMetrics")).length := by
  intro vals
  induction vals with
  | nil => simp [upsertMetrics]
  | cons r rs ih =>
      by_cases hr : r.rtype = "custom:taskMetrics"
      · simp [upsertMetrics, hr, List.filter_cons]
      · simp [upsertMetrics, hr, List.filter_cons, ih]

lemma metricsCount_updateElement (e : Element) (c : String) (h : metricsCount e ≤ 1) :
    metricsCount (updateElement e c) = 1 := by
  unfold metricsCount at h ⊢
  unfold updateElement
  simp only [Option.getD_some]
  rw [length_filter_upsert]
  split
  · rfl
  · omega

lemma metricsCount_le_updateElement (e : Element) (c : String) (h : metricsCount e ≤ 1) :
    metricsCount (updateElement e c) ≤ 1 :=
  le_of_eq (metricsCount_updateElement e c h)

/-- Along any further update sequence, an element that is found with exactly
one taskMetrics record keeps being found with exactly one. -/
lemma findById_updateTasks_count_one :
    ∀ (R : List TaskRecord) (d : List Element) (tid : String) (e : Element),
      findById d tid = some e → metricsCount e = 1 →
      ∃ e2, findById (updateTasks d R) tid = some e2 ∧ metricsCount e2 = 1 := by
  intro R
  induction R with
  | nil => intro d tid e h h1; exact ⟨e, h, h1⟩
  | cons r R ih =>
      intro d tid e h h1
      by_cases hid : r.taskId = tid
      · have hfind : findById (updateById d r.taskId (cleanDuration r.duration)) tid
            = some (updateElement e (cleanDuration r.duration)) := by
          rw [hid, findById_updateById_self, h]
          rfl
        exact ih _ tid _ hfind (metricsCount_updateElement e _ (le_of_eq h1))
      · have hfind : findById (updateById d r.taskId (cleanDuration r.duration)) tid
            = some e := by
          rw [findById_updateById_other _ _ _ _ (fun hc => hid hc.symm)]
          exact h
        exact ih _ tid _ hfind h1

/-- Along any update sequence, an element found with at most one taskMetrics
record keeps at most one. -/
lemma findById_updateTasks_count_le :
    ∀ (R : List TaskRecord) (d : List Element) (tid : String) (e : Element),
      findById d tid = some e → metricsCount e ≤ 1 →
      ∃ e2, findById (updateTasks d R) tid = some e2 ∧ metricsCount e2 ≤ 1 := by
  intro R
  induction R with
  | nil => intro d tid e h h1; exact ⟨e, h, h1⟩
  | cons r R ih =>
      intro d tid e h h1
      by_cases hid : r.taskId = tid
      · have hfind : findById (updateById d r.taskId (cleanDuration r.duration)) tid
            = some (updateElement e (cleanDuration r.duration)) := by
          rw [hid, findById_updateById_self, h]
          rfl
        exact ih _ tid _ hfind (metricsCount_le_updateElement e _ h1)
      · have hfind : findById (updateById d r.taskId (cleanDuration r.duration)) tid
            = some e := by
          rw [findById_updateById_other _ _ _ _ (fun hc => hid hc.symm)]
          exact h
        exact ih _ tid _ hfind h1

lemma isSome_of_metricsCount_one (e : Element) (h : metricsCount e = 1) :
    e.businessObject.extensionElements.isSome = true := by
  cases hx : e.businessObject.extensionElements with
  | none =>
      unfold metricsCount at h
      rw [hx] at h
      simp at h
  | some v => simp

lemma extractRecord_mem {d : List Element} {e : Element}
    (he : e ∈ d) (ht : isTask e = true) : extractRecord e ∈ extractTasks d :=
  List.mem_map_of_mem _ (List.mem_filter.mpr ⟨he, ht⟩)

/-! ## Claims -/

/-- C5: parseDuration maps 02:30 to 150, the empty string to 0, abc:30 to 30
and 1:2:3 to 0; in general a blank string or a split with a part count other
than two gives 0, and otherwise each part goes through the parseInt model
with a fallback of 0, so a non-numeric part contributes 0. -/
theorem parseDuration_spec :
    parseDuration "02:30" = 150 ∧ parseDuration "" = 0 ∧
    parseDuration "abc:30" = 30 ∧ parseDuration "1:2:3" = 0 ∧
    (∀ s : String, jsTrim s = "" → parseDuration s = 0) ∧
    (∀ s : String, (jsSplit ':' s).length ≠ 2 → parseDuration s = 0) ∧
    (∀ s a b : String, jsSplit ':' s = [a, b] → jsTrim s ≠ "" →
        parseDuration s = ((parseIntJS a).getD 0) * 60 + (parseIntJS b).getD 0) := by
  refine ⟨by decide, by decide, by decide, by decide, ?_, ?_, ?_⟩
  · intro s h
    by_cases hs : s = ""
    · simp [parseDuration, hs]
    · simp [parseDuration, hs, h]
  · intro s h
    by_cases hs : s = ""
    · simp [parseDuration, hs]
    · by_cases ht : jsTrim s = ""
      · simp [parseDuration, hs, ht]
      · simp [parseDuration, hs, ht, h]
  · intro s a b hsplit htrim
    have hs : s ≠ "" := by
      intro hcon
      subst hcon
      simp [jsSplit, splitOnChar] at hsplit
    simp [parseDuration, hs, htrim, hsplit]

/-- Closed instantiation of the hypothesis-bearing clauses of
parseDuration_spec. -/
theorem parseDuration_spec_witness :
    parseDuration " " = 0 ∧ parseDuration "1:2:3" = 0 ∧
    parseDuration "7:08" = ((parseIntJS "7").getD 0) * 60 + (parseIntJS "08").getD 0 :=
  ⟨parseDuration_spec.2.2.2.2.1 " " (by decide),
   parseDuration_spec.2.2.2.2.2.1 "1:2:3" (by decide),
   parseDuration_spec.2.2.2.2.2.2 "7:08" "7" "08" (by decide) (by decide)⟩

/-- C2: in every validateDiagram run, over every diagram and configuration,
no two results of the produced list share the deduplication key, the pair of
rule id and element id with a global fallback. -/
theorem validateDiagram_dedup (d : List Element) (cfg : List (String × Severity)) :
    ((validateDiagram d cfg).all.map resultPairKey).Nodup := by
  have hinv : DedupInv (validateLoop d cfg ([], [])) :=
    validateLoop_inv d cfg ([], []) ⟨by simp, by simp⟩
  have hall : (validateDiagram d cfg).all = (validateLoop d cfg ([], [])).2 := rfl
  have hkeys : ((validateDiagram d cfg).all.map resultKey).Nodup := by
    rw [hall]; exact hinv.2
  have hfactor :
      (validateDiagram d cfg).all.map resultKey
        = ((validateDiagram d cfg).all.map resultPairKey).map
            (fun p => p.1 ++ "-" ++ p.2) := by
    rw [List.map_map]; rfl
  rw [hfactor] at hkeys
  exact hkeys.of_map _

/-- C9: a configuration entry whose severity is off or whose rule id has no
registered implementation is skipped silently: removing it leaves the whole
validation output unchanged, and no produced result ever carries an off
severity or an unregistered rule id. -/
theorem validateDiagram_skips_silently (d : List Element)
    (cfg₁ cfg₂ : List (String × Severity)) (rid : String) (sev : Severity)
    (h : sev = Severity.off ∨ ruleRegistry rid = none) :
    validateDiagram d (cfg₁ ++ (rid, sev) :: cfg₂) = validateDiagram d (cfg₁ ++ cfg₂)
    ∧ ∀ (cfg : List (String × Severity)), ∀ r ∈ (validateDiagram d cfg).all,
        r.severity ≠ Severity.off ∧ (ruleRegistry r.ruleId).isSome = true := by
  constructor
  · unfold validateDiagram
    rw [validateLoop_skip d cfg₂ rid sev h cfg₁ ([], [])]
  · intro cfg r hr
    have hmem : r ∈ (validateLoop d cfg ([], [])).2 := hr
    refine validateLoop_results d
      (fun r => r.severity ≠ Severity.off ∧ (ruleRegistry r.ruleId).isSome = true)
      ?_ cfg ([], []) (by simp) r hmem
    intro rid1 sev1 rule hoff hreg v
    exact ⟨hoff, by simp [hreg]⟩

/-- Closed instantiation of validateDiagram_skips_silently: dropping an
off-severity entry does not change the output on a concrete run. -/
theorem validateDiagram_skips_silently_witness :
    validateDiagram [] ([] ++ ("task-multiple-outgoing", Severity.off) :: [("start-event-required", Severity.error)])
      = validateDiagram [] ([] ++ [("start-event-required", Severity.error)]) :=
  (validateDiagram_skips_silently [] [] [("start-event-required", Severity.error)]
    "task-multiple-outgoing" Severity.off (Or.inl rfl)).1

/-- C4: updateTasks only creates or mutates custom:taskMetrics records: for
every diagram and record list, every element keeps its id and exactly its
previous non-taskMetrics metadata records, unchanged and in order, so
unrelated metadata is never removed. -/
theorem updateTasks_frame (d : List Element) (records : List TaskRecord) :
    (updateTasks d records).map frameProj = d.map frameProj := by
  induction records generalizing d with
  | nil => rfl
  | cons t R ih =>
      calc (updateTasks d (t :: R)).map frameProj
          = (updateTasks (updateById d t.taskId (cleanDuration t.duration)) R).map frameProj := rfl
        _ = (updateById d t.taskId (cleanDuration t.duration)).map frameProj := ih _
        _ = d.map frameProj := updateById_frame _ _ d

/-- C7: the task-multiple-outgoing rule emits exactly the per-element
warnings of the task-like elements having strictly more than one
unconditional outgoing sequence flow, and under unique element ids each
element receives exactly one warning when it qualifies and none otherwise,
never one per flow. -/
theorem taskMultipleOutgoing_spec :
    (∀ els : List Element,
        taskMultipleOutgoingRule els
          = (els.filter (fun e => isTask e && hasMultipleUnconditional e)).map
              (fun e => { elementId := some e.eid, message := taskOutgoingMsg }))
    ∧ (∀ els : List Element, (els.map Element.eid).Nodup → ∀ e ∈ els,
        (taskMultipleOutgoingRule els).countP (fun v => v.elementId == some e.eid)
          = if isTask e && hasMultipleUnconditional e then 1 else 0) := by
  have hchar : ∀ els : List Element,
      taskMultipleOutgoingRule els
        = (els.filter (fun e => isTask e && hasMultipleUnconditional e)).map
            (fun e => { elementId := some e.eid, message := taskOutgoingMsg }) := by
    intro els
    simpa using
      foldl_push_aux (fun e => isTask e && hasMultipleUnconditional e)
        (fun e => { elementId := some e.eid, message := taskOutgoingMsg })
        taskOutgoingStep taskOutgoingStep_eq els []
  refine ⟨hchar, ?_⟩
  intro els hnd e he
  rw [hchar els, List.countP_map]
  have hcongr :
      (els.filter (fun e2 => isTask e2 && hasMultipleUnconditional e2)).countP
          ((fun v => v.elementId == some e.eid)
            ∘ (fun e2 => ({ elementId := some e2.eid, message := taskOutgoingMsg } : Violation)))
        = (els.filter (fun e2 => isTask e2 && hasMultipleUnconditional e2)).countP
            (fun e2 => e2.eid == e.eid) := by
    apply List.countP_congr
    intro a _
    simp
  rw [hcongr, List.countP_filter]
  exact countP_eid_nodup (fun x => isTask x && hasMultipleUnconditional x) els hnd e he

/-- A task with two unconditional outgoing sequence flows. -/
def multiOutTask : Element :=
  { eid := "T"
    businessObject :=
      { id := "T", name := some "Task T", btype := some "bpmn:Task",
        attachedToRef := false, extensionElements := none }
    incoming := []
    outgoing := [{ ctype := "bpmn:SequenceFlow", hasCondition := false },
                 { ctype := "bpmn:SequenceFlow", hasCondition := false }] }

/-- Closed instantiation of the counting clause of taskMultipleOutgoing_spec:
the two-flow task receives exactly one warning. -/
theorem taskMultipleOutgoing_spec_witness :
    (taskMultipleOutgoingRule [multiOutTask]).countP
        (fun v => v.elementId == some multiOutTask.eid)
      = if isTask multiOutTask && hasMultipleUnconditional multiOutTask then 1 else 0 :=
  taskMultipleOutgoing_spec.2 [multiOutTask] (by decide) multiOutTask (by decide)

/-- C8: the no-orphan-elements rule emits exactly the per-element errors of
the flow nodes that are not start events, end events or boundary events and
have neither incoming nor outgoing connections, and under unique element ids
each element receives exactly one error when it qualifies and none
otherwise. -/
theorem orphanElements_spec :
    (∀ els : List Element,
        orphanElementsRule els
          = (els.filter isOrphan).map
              (fun e => { elementId := some e.eid, message := orphanMsg }))
    ∧ (∀ els : List Element, (els.map Element.eid).Nodup → ∀ e ∈ els,
        (orphanElementsRule els).countP (fun v => v.elementId == some e.eid)
          = if isOrphan e then 1 else 0) := by
  have hchar : ∀ els : List Element,
      orphanElementsRule els
        = (els.filter isOrphan).map
            (fun e => { elementId := some e.eid, message := orphanMsg }) := by
    intro els
    simpa using
      foldl_push_aux isOrphan (fun e => { elementId := some e.eid, message := orphanMsg })
        orphanStep orphanStep_eq els []
  refine ⟨hchar, ?_⟩
  intro els hnd e he
  rw [hchar els, List.countP_map]
  have hcongr :
      (els.filter isOrphan).countP
          ((fun v => v.elementId == some e.eid)
            ∘ (fun e2 => ({ elementId := some e2.eid, message := orphanMsg } : Violation)))
        = (els.filter isOrphan).countP (fun e2 => e2.eid == e.eid) := by
    apply List.countP_congr
    intro a _
    simp
  rw [hcongr, List.countP_filter]
  exact countP_eid_nodup isOrphan els hnd e he

/-- Closed instantiation of the counting clause of orphanElements_spec: a
disconnected plain task receives exactly one error. -/
theorem orphanElements_spec_witness :
    (orphanElementsRule [mkTask "O" "Orphan"]).countP
        (fun v => v.elementId == some (mkTask "O" "Orphan").eid)
      = if isOrphan (mkTask "O" "Orphan") then 1 else 0 :=
  orphanElements_spec.2 [mkTask "O" "Orphan"] (by decide) (mkTask "O" "Orphan") (by decide)

/-- C6: applyBottleneckColors clears the bottleneck-high marker from all
task-like elements and, when some task has strictly positive parsed minutes,
marks exactly one element: the element of the task with the
strictly-highest total minutes, ties broken in favor of the first such task
in iteration order. On the scenario with tasks A of one hour, B of two hours
and C without duration, exactly B ends up marked and a subsequent
clearBottleneckColors leaves no task-like element marked; with no positive
duration, only the clearing pass happens. -/
theorem applyBottleneckColors_spec :
    (applyBottleneckColors exDiagram exTasks [] = [("B", "bottleneck-high")]
      ∧ clearBottleneckColors exDiagram [("B", "bottleneck-high")] = [])
    ∧ (∀ (d : List Element) (tasks : List TaskRecord) (ms : Markers),
        (∀ t ∈ tasks, parseDurationOpt t.duration ≤ 0) →
        applyBottleneckColors d tasks ms = clearBottleneckColors d ms)
    ∧ (∀ (d : List Element) (ms : Markers), ∀ e ∈ d, isTask e = true →
        (e.eid, "bottleneck-high") ∉ clearBottleneckColors d ms)
    ∧ (∀ tasks : List TaskRecord,
        (∃ t ∈ tasks, 0 < parseDurationOpt t.duration) →
        ∃ t₀, pickBottleneck (tasksWithDuration tasks) = some t₀)
    ∧ (∀ (d : List Element) (tasks : List TaskRecord) (ms : Markers)
          (t₀ : TaskRecord) (e₀ : Element),
        pickBottleneck (tasksWithDuration tasks) = some t₀ →
        findById d t₀.taskId = some e₀ →
        applyBottleneckColors d tasks ms
            = addMarker (clearBottleneckColors d ms) e₀.eid "bottleneck-high"
          ∧ t₀ ∈ tasks ∧ 0 < parseDurationOpt t₀.duration
          ∧ (∀ t ∈ tasks, parseDurationOpt t.duration ≤ parseDurationOpt t₀.duration)
          ∧ (∃ l₁ l₂, tasksWithDuration tasks
                = l₁ ++ (t₀, parseDurationOpt t₀.duration) :: l₂
              ∧ ∀ q ∈ l₁, q.2 < parseDurationOpt t₀.duration)
          ∧ (∀ e ∈ d, isTask e = true →
              ((e.eid, "bottleneck-high") ∈ applyBottleneckColors d tasks ms
                ↔ e.eid = e₀.eid))) := by
  refine ⟨⟨by decide, by decide⟩, ?_, ?_, ?_, ?_⟩
  · exact applyBottleneck_of_no_positive
  · intro d ms e he ht
    exact clear_no_task_marker d ms e he ht
  · intro tasks ⟨t, ht, hpos⟩
    have hmem : (t, parseDurationOpt t.duration) ∈ tasksWithDuration tasks :=
      mem_tasksWithDuration ht hpos
    unfold pickBottleneck
    rcases pick_aux (tasksWithDuration tasks) 0 none with
      ⟨_, hall⟩ | ⟨l₁, t1, M, l₂, _, _, _, _, heq⟩
    · exact absurd (hall _ hmem) (by simpa using hpos)
    · exact ⟨t1, by rw [heq]⟩
  · intro d tasks ms t₀ e₀ hpick hfind
    obtain ⟨htt, hpos, hmax, l₁, l₂, hsplit, hbefore⟩ := pickBottleneck_sound hpick
    have happly := apply_pos_case ms hpick hfind
    refine ⟨happly, htt, hpos, hmax, ⟨l₁, l₂, hsplit, hbefore⟩, ?_⟩
    intro e he ht
    rw [happly, addMarker_mem]
    constructor
    · rintro (hin | hpair)
      · exact absurd hin (clear_no_task_marker d ms e he ht)
      · exact congrArg Prod.fst hpair
    · intro heq
      exact Or.inr (by rw [heq])

/-- Closed instantiation of the positive-case clause of
applyBottleneckColors_spec on the scenario diagram: the result is the
cleared marker state plus one marker on element B. -/
theorem applyBottleneckColors_spec_witness :
    applyBottleneckColors exDiagram exTasks []
      = addMarker (clearBottleneckColors exDiagram []) (mkTask "B" "Task B").eid
          "bottleneck-high" :=
  (applyBottleneckColors_spec.2.2.2.2 exDiagram exTasks []
    { taskId := "B", name := "Task B", ttype := "bpmn:Task", duration := some "02:00" }
    (mkTask "B" "Task B") (by decide) (by decide)).1

/-- C3: under the data-model invariant of at most one taskMetrics record per
element, updateTasks leaves every addressed element with exactly one
custom:taskMetrics record and a present extension block after one call, and
a second call with the same records updates that record in place instead of
appending a duplicate, so the count is still exactly one. -/
theorem updateTasks_idempotent (d : List Element) (R : List TaskRecord)
    (hInv : ∀ e ∈ d, metricsCount e ≤ 1) :
    ∀ r ∈ R, ∀ e₀ : Element, findById d r.taskId = some e₀ →
      (∃ e₁, findById (updateTasks d R) r.taskId = some e₁ ∧ metricsCount e₁ = 1
         ∧ e₁.businessObject.extensionElements.isSome = true)
      ∧ (∃ e₂, findById (updateTasks (updateTasks d R) R) r.taskId = some e₂
          ∧ metricsCount e₂ = 1
          ∧ e₂.businessObject.extensionElements.isSome = true) := by
  intro r hr e₀ hfind0
  obtain ⟨R₁, R₂, hRsplit⟩ := List.append_of_mem hr
  have hc0 : metricsCount e₀ ≤ 1 := hInv e₀ (List.mem_of_find?_eq_some hfind0)
  obtain ⟨e₁, hf1, hc1⟩ := findById_updateTasks_count_le R₁ d r.taskId e₀ hfind0 hc0
  have hf2 : findById (updateById (updateTasks d R₁) r.taskId (cleanDuration r.duration))
      r.taskId = some (updateElement e₁ (cleanDuration r.duration)) := by
    rw [findById_updateById_self, hf1]
    rfl
  have hc2 : metricsCount (updateElement e₁ (cleanDuration r.duration)) = 1 :=
    metricsCount_updateElement _ _ hc1
  obtain ⟨e₃, hf3, hc3⟩ := findById_updateTasks_count_one R₂ _ r.taskId _ hf2 hc2
  have hsplitU : updateTasks d R
      = updateTasks (updateById (updateTasks d R₁) r.taskId (cleanDuration r.duration)) R₂ := by
    rw [hRsplit]
    unfold updateTasks
    rw [List.foldl_append, List.foldl_cons]
  have hfin1 : findById (updateTasks d R) r.taskId = some e₃ := by
    rw [hsplitU]
    exact hf3
  obtain ⟨e₄, hf4, hc4⟩ := findById_updateTasks_count_one R _ r.taskId e₃ hfin1 hc3
  exact ⟨⟨e₃, hfin1, hc3, isSome_of_metricsCount_one _ hc3⟩,
         ⟨e₄, hf4, hc4, isSome_of_metricsCount_one _ hc4⟩⟩

/-- The first record of the duplicate-id list, used in witnesses. -/
def cexRec1 : TaskRecord :=
  { taskId := "T1", name := "Task 1", ttype := "bpmn:Task", duration := some "01:00" }

/-- Closed instantiation of updateTasks_idempotent on the one-task diagram. -/
theorem updateTasks_idempotent_witness :
    (∃ e₁, findById (updateTasks cexDiagram [cexRec1]) cexRec1.taskId = some e₁
       ∧ metricsCount e₁ = 1 ∧ e₁.businessObject.extensionElements.isSome = true)
    ∧ (∃ e₂, findById (updateTasks (updateTasks cexDiagram [cexRec1]) [cexRec1])
          cexRec1.taskId = some e₂
        ∧ metricsCount e₂ = 1 ∧ e₂.businessObject.extensionElements.isSome = true) :=
  updateTasks_idempotent cexDiagram [cexRec1] (by decide) cexRec1 (by decide)
    (mkTask "T1" "Task 1") (by decide)

/-- C1 counterexample: on a diagram with the single task T1 and a record list
naming T1 twice with different durations, every record names a task-like
element present in the diagram, yet extraction after update returns the last
duration, not the sanitized duration of each record, so the claim quantified
over every record list fails. -/
theorem roundtrip_counterexample :
    cexRecords.map TaskRecord.taskId = ["T1", "T1"]
    ∧ (∀ r ∈ cexRecords, ∃ e ∈ cexDiagram, e.eid = r.taskId ∧ isTask e = true)
    ∧ extractTasks (updateTasks cexDiagram cexRecords)
        = [{ taskId := "T1", name := "Task 1", ttype := "bpmn:Task", duration := some "02:00" }]
    ∧ cleanDuration (some "01:00") = "01:00"
    ∧ ¬ (∀ r ∈ cexRecords, ∀ t ∈ extractTasks (updateTasks cexDiagram cexRecords),
          t.taskId = r.taskId → t.duration = some (cleanDuration r.duration)) :=
  ⟨by decide, by decide, by decide, by decide, by decide⟩

/-- C1 amended: for a diagram with unique element ids whose business-object
ids agree with the element ids, and a record list with pairwise-distinct
taskIds all naming task-like elements of the diagram, updateTasks followed by
extractTasks returns, for each record, exactly the sanitized duration of
that record. -/
theorem roundtrip_amended (d : List Element) (R : List TaskRecord)
    (hIds : (d.map Element.eid).Nodup)
    (hBo : ∀ e ∈ d, e.businessObject.id = e.eid)
    (hR : (R.map TaskRecord.taskId).Nodup)
    (hTask : ∀ r ∈ R, ∃ e ∈ d, e.eid = r.taskId ∧ isTask e = true) :
    ∀ r ∈ R,
      (∃ t ∈ extractTasks (updateTasks d R), t.taskId = r.taskId
          ∧ t.duration = some (cleanDuration r.duration))
      ∧ ∀ t ∈ extractTasks (updateTasks d R), t.taskId = r.taskId →
          t.duration = some (cleanDuration r.duration) := by
  intro r hr
  obtain ⟨e, hed, heid, htask⟩ := hTask r hr
  obtain ⟨R₁, R₂, hRsplit⟩ := List.append_of_mem hr
  have hmapR : R.map TaskRecord.taskId
      = R₁.map TaskRecord.taskId ++ r.taskId :: R₂.map TaskRecord.taskId := by
    rw [hRsplit]
    simp
  have hnd2 := hR
  rw [hmapR] at hnd2
  have h₁ : ∀ r2 ∈ R₁, r2.taskId ≠ r.taskId := by
    intro r2 hr2 hc
    have hdisj := (List.nodup_append.mp hnd2).2.2
    exact hdisj (List.mem_map_of_mem _ hr2) (by rw [hc]; exact List.mem_cons_self _ _)
  have h₂ : ∀ r2 ∈ R₂, r2.taskId ≠ r.taskId := by
    have hmid := (List.nodup_append.mp hnd2).2.1
    rw [List.nodup_cons] at hmid
    intro r2 hr2 hc
    exact hmid.1 (by rw [← hc]; exact List.mem_map_of_mem _ hr2)
  have hfind0 : findById d r.taskId = some e := by
    rw [← heid]
    exact findById_eq_of_mem d hIds e hed
  have hf1 : findById (updateTasks d R₁) r.taskId = some e := by
    rw [findById_updateTasks_other R₁ d r.taskId h₁]
    exact hfind0
  have hf2 : findById (updateById (updateTasks d R₁) r.taskId (cleanDuration r.duration))
      r.taskId = some (updateElement e (cleanDuration r.duration)) := by
    rw [findById_updateById_self, hf1]
    rfl
  have hsplitU : updateTasks d R
      = updateTasks (updateById (updateTasks d R₁) r.taskId (cleanDuration r.duration)) R₂ := by
    rw [hRsplit]
    unfold updateTasks
    rw [List.foldl_append, List.foldl_cons]
  have hf3 : findById (updateTasks d R) r.taskId
      = some (updateElement e (cleanDuration r.duration)) := by
    rw [hsplitU, findById_updateTasks_other R₂ _ _ h₂]
    exact hf2
  have hmem3 : updateElement e (cleanDuration r.duration) ∈ updateTasks d R :=
    List.mem_of_find?_eq_some hf3
  have htask3 : isTask (updateElement e (cleanDuration r.duration)) = true := by
    rw [isTask_updateElement]
    exact htask
  have hid3 : (updateElement e (cleanDuration r.duration)).businessObject.id = r.taskId := by
    rw [boId_updateElement, hBo e hed, heid]
  have hdur3 : (extractRecord (updateElement e (cleanDuration r.duration))).duration
      = some (cleanDuration r.duration) := by
    simp [extractRecord, metricsOf_updateElement]
  constructor
  · exact ⟨extractRecord (updateElement e (cleanDuration r.duration)),
      extractRecord_mem hmem3 htask3, hid3, hdur3⟩
  · intro t ht htid
    obtain ⟨e2, he2, rfl⟩ := List.mem_map.mp ht
    have he2f := List.mem_filter.mp he2
    have hBo3 : ∀ x ∈ updateTasks d R, x.businessObject.id = x.eid :=
      updateTasks_preserve (fun x => x.businessObject.id = x.eid) (fun _ _ h => h) R d hBo
    have hnd3 : ((updateTasks d R).map Element.eid).Nodup := by
      rw [updateTasks_eids]
      exact hIds
    have heid2 : e2.eid = r.taskId := by
      rw [← hBo3 e2 he2f.1]
      exact htid
    have heid3 : (updateElement e (cleanDuration r.duration)).eid = r.taskId := by
      rw [updateElement_eid, heid]
    have heq : e2 = updateElement e (cleanDuration r.duration) :=
      eq_of_mem_nodup_eid _ hnd3 e2 he2f.1 _ hmem3 (by rw [heid2, heid3])
    rw [heq]
    exact hdur3

/-- Closed instantiation of roundtrip_amended on the one-task diagram with a
single record. -/
theorem roundtrip_amended_witness :
    (∃ t ∈ extractTasks (updateTasks cexDiagram [cexRec1]), t.taskId = cexRec1.taskId
        ∧ t.duration = some (cleanDuration cexRec1.duration))
    ∧ ∀ t ∈ extractTasks (updateTasks cexDiagram [cexRec1]), t.taskId = cexRec1.taskId →
        t.duration = some (cleanDuration cexRec1.duration) :=
  roundtrip_amended cexDiagram [cexRec1] (by decide) (by decide) (by decide)
    (by decide) cexRec1 (by decide)

/-- C10: parseDuration is not guaranteed nonnegative: the input -2:30 is
non-empty, splits into exactly two parts, its hour part parses as the
negative integer -2 and the overall result is -90 minutes; a task carrying
that duration is excluded by applyBottleneckColors, which keeps only tasks
with strictly positive total minutes and therefore only performs its
clearing pass. -/
theorem parseDuration_can_be_negative :
    parseDuration "-2:30" = -90 ∧ parseDuration "-2:30" < 0 ∧
    jsTrim "-2:30" ≠ "" ∧ (jsSplit ':' "-2:30").length = 2 ∧
    parseIntJS "-2" = some (-2) ∧
    (∀ t ∈ negTasks, parseDurationOpt t.duration ≤ 0) ∧
    (∀ (d : List Element) (ms : Markers),
        applyBottleneckColors d negTasks ms = clearBottleneckColors d ms) := by
  refine ⟨by decide, by decide, by decide, by decide, by decide, by decide, ?_⟩
  intro d ms
  exact applyBottleneck_of_no_positive d negTasks ms (by decide)

/-- Closed instantiation of the hypothesis-bearing clauses of
parseDuration_can_be_negative: the negative-duration task is excluded and the
analyzer only clears on the one-task scenario diagram. -/
theorem parseDuration_can_be_negative_witness :
    parseDurationOpt (some "-2:30") ≤ 0
    ∧ applyBottleneckColors cexDiagram negTasks [] = clearBottleneckColors cexDiagram [] :=
  ⟨parseDuration_can_be_negative.2.2.2.2.2.1
      { taskId := "T1", name := "Task 1", ttype := "bpmn:Task", duration := some "-2:30" }
      (by decide),
   parseDuration_can_be_negative.2.2.2.2.2.2 cexDiagram []⟩

end BpmnWidget
